import Mathlib

/-!
Verification development for the RTD (residence time distribution) analysis
pipeline of `src/rtd.py`.  The numeric core (lines 64 and 82-107 of the
source) is shallowly embedded over `ℚ`: every float operation of the source
becomes exact rational arithmetic, NaN-producing guarded divisions become
`Option ℚ` (with `none` playing the role of `np.nan`), and the constant
`np.pi` (itself a rational float in the source) becomes an explicit
parameter `piv` of the parameter record.  Division by zero in `ℚ` yields 0;
every division in the source is either guarded (`if v != 0`, `if Q != 0`,
`if mu != 0`, `if D_ax != 0`) or performed after the corresponding guard,
so the embedding is faithful on the guarded paths the claims speak about.
-/

namespace RTD

/-- Embedding of `scipy.integrate.trapezoid(y, x)`: the composite
trapezoidal rule paired over the two lists, consuming both in lockstep.
With fewer than two points on either axis the integral is 0, exactly as
`trapezoid` returns 0 for a single sample. -/
def trapezoid : List ℚ → List ℚ → ℚ
  | y0 :: y1 :: ys, x0 :: x1 :: xs =>
      (x1 - x0) * (y0 + y1) / 2 + trapezoid (y1 :: ys) (x1 :: xs)
  | _, _ => 0

@[simp] theorem trapezoid_nil_left (x : List ℚ) : trapezoid [] x = 0 := rfl

@[simp] theorem trapezoid_single_left (y0 : ℚ) (x : List ℚ) :
    trapezoid [y0] x = 0 := rfl

@[simp] theorem trapezoid_nil_right : ∀ (y : List ℚ), trapezoid y [] = 0
  | [] => rfl
  | [_] => rfl
  | _ :: _ :: _ => rfl

@[simp] theorem trapezoid_single_right (x0 : ℚ) :
    ∀ (y : List ℚ), trapezoid y [x0] = 0
  | [] => rfl
  | [_] => rfl
  | _ :: _ :: _ => rfl

theorem trapezoid_cons (y0 y1 x0 x1 : ℚ) (ys xs : List ℚ) :
    trapezoid (y0 :: y1 :: ys) (x0 :: x1 :: xs) =
      (x1 - x0) * (y0 + y1) / 2 + trapezoid (y1 :: ys) (x1 :: xs) := rfl

/-- The trapezoidal rule vanishes on an identically-zero integrand. -/
theorem trapezoid_eq_zero_of_mem :
    ∀ (y x : List ℚ), (∀ a ∈ y, a = 0) → trapezoid y x = 0
  | [], _, _ => rfl
  | [_], _, _ => by simp
  | _ :: _ :: _, [], _ => by simp
  | _ :: _ :: _, [_], _ => by simp
  | y0 :: y1 :: ys, x0 :: x1 :: xs, h => by
      have h0 : y0 = 0 := h y0 (by simp)
      have h1 : y1 = 0 := h y1 (by simp)
      have ih : trapezoid (y1 :: ys) (x1 :: xs) = 0 :=
        trapezoid_eq_zero_of_mem (y1 :: ys) (x1 :: xs)
          (fun a ha => h a (List.mem_cons_of_mem _ ha))
      rw [trapezoid_cons, ih, h0, h1]
      ring

/-- Dividing the integrand pointwise divides the trapezoidal integral. -/
theorem trapezoid_map_div (a : ℚ) :
    ∀ (y x : List ℚ), trapezoid (y.map (fun c => c / a)) x = trapezoid y x / a
  | [], x => by simp
  | [_], x => by simp
  | _ :: _ :: _, [] => by simp
  | _ :: _ :: _, [_] => by simp
  | y0 :: y1 :: ys, x0 :: x1 :: xs => by
      have ih := trapezoid_map_div a (y1 :: ys) (x1 :: xs)
      simp only [List.map_cons] at ih ⊢
      rw [trapezoid_cons, trapezoid_cons, ih]
      ring

/-- Scaling the integrand pointwise scales the trapezoidal integral. -/
theorem trapezoid_map_mul (a : ℚ) :
    ∀ (y x : List ℚ), trapezoid (y.map (fun c => a * c)) x = a * trapezoid y x
  | [], x => by simp
  | [_], x => by simp
  | _ :: _ :: _, [] => by simp
  | _ :: _ :: _, [_] => by simp
  | y0 :: y1 :: ys, x0 :: x1 :: xs => by
      have ih := trapezoid_map_mul a (y1 :: ys) (x1 :: xs)
      simp only [List.map_cons] at ih ⊢
      rw [trapezoid_cons, trapezoid_cons, ih]
      ring

/-- Uniformly shifting the abscissa leaves the trapezoidal integral
unchanged: only the differences of consecutive abscissae enter. -/
theorem trapezoid_map_add_right (c : ℚ) :
    ∀ (y x : List ℚ), trapezoid y (x.map (fun t => t + c)) = trapezoid y x
  | [], x => by simp
  | [_], x => by simp
  | _ :: _ :: _, [] => by simp
  | _ :: _ :: _, [_] => by simp
  | y0 :: y1 :: ys, x0 :: x1 :: xs => by
      have ih := trapezoid_map_add_right c (y1 :: ys) (x1 :: xs)
      simp only [List.map_cons] at ih ⊢
      rw [trapezoid_cons, trapezoid_cons, ih]
      ring

/-- The trapezoidal rule is additive in the integrand (for integrands of
equal length). -/
theorem trapezoid_add :
    ∀ (y z x : List ℚ), y.length = z.length →
      trapezoid (List.zipWith (fun a b => a + b) y z) x =
        trapezoid y x + trapezoid z x
  | [], z, x, h => by
      have : z = [] := List.eq_nil_of_length_eq_zero h.symm
      simp [this]
  | y0 :: ytl, [], x, h => by simp at h
  | [y0], z0 :: ztl, x, h => by
      have : ztl = [] := List.eq_nil_of_length_eq_zero (by simpa using h.symm)
      simp [this]
  | y0 :: y1 :: ys, [z0], x, h => by simp at h
  | y0 :: y1 :: ys, z0 :: z1 :: zs, [], h => by simp
  | y0 :: y1 :: ys, z0 :: z1 :: zs, [x0], h => by simp
  | y0 :: y1 :: ys, z0 :: z1 :: zs, x0 :: x1 :: xs, h => by
      have ih := trapezoid_add (y1 :: ys) (z1 :: zs) (x1 :: xs) (by simpa using h)
      simp only [List.zipWith_cons_cons] at ih ⊢
      rw [trapezoid_cons, trapezoid_cons, trapezoid_cons, ih]
      ring

/-- The trapezoidal rule written as the textbook closed-form sum over the
consecutive intervals of the grid, the way the spec words "integrate with
the trapezoidal rule".  Used to check that the recursive `trapezoid`
implements exactly this sum. -/
def trapezoidSum (y x : List ℚ) : ℚ :=
  ∑ i in Finset.range (min y.length x.length - 1),
    (x.getD (i + 1) 0 - x.getD i 0) * (y.getD i 0 + y.getD (i + 1) 0) / 2

/-- The recursive pairwise `trapezoid` computes the textbook interval sum. -/
theorem trapezoid_eq_trapezoidSum :
    ∀ (y x : List ℚ), trapezoid y x = trapezoidSum y x
  | [], x => by simp [trapezoidSum]
  | [y0], x => by
      have : min 1 x.length - 1 = 0 := by
        rcases x with _ | ⟨x0, xs⟩ <;> simp
      simp [trapezoidSum, this]
  | y0 :: y1 :: ys, [] => by simp [trapezoidSum]
  | y0 :: y1 :: ys, [x0] => by simp [trapezoidSum]
  | y0 :: y1 :: ys, x0 :: x1 :: xs => by
      have ih := trapezoid_eq_trapezoidSum (y1 :: ys) (x1 :: xs)
      rw [trapezoid_cons, ih]
      simp only [trapezoidSum, List.length_cons]
      have hmin : min (ys.length + 1 + 1) (xs.length + 1 + 1) =
          min ys.length xs.length + 1 + 1 := by
        rw [Nat.succ_min_succ, Nat.succ_min_succ]
      have hmin1 : min (ys.length + 1) (xs.length + 1) =
          min ys.length xs.length + 1 := by
        rw [Nat.succ_min_succ]
      rw [hmin, hmin1, Nat.add_sub_cancel, Nat.add_sub_cancel,
        Finset.sum_range_succ']
      simp only [List.getD_cons_succ, List.getD_cons_zero]
      ring

/-- Embedding of `np.clip(C, 0, None)` (line 85): each concentration below
zero is replaced with zero. -/
def clip0 (C : List ℚ) : List ℚ := C.map (fun c => max c 0)

/-- The raw total area `trapezoid(C, t)` of the clipped trace (line 90). -/
def totalArea (t C : List ℚ) : ℚ := trapezoid (clip0 C) t

/-- Embedding of line 90:
`E = C / trapezoid(C, t) if trapezoid(C, t) != 0 else np.zeros_like(C)`. -/
def Edist (t C : List ℚ) : List ℚ :=
  if totalArea t C ≠ 0 then
    (clip0 C).map (fun c => c / totalArea t C)
  else
    List.replicate (clip0 C).length 0

/-- Embedding of line 91: `tau = trapezoid(t * E, t)`. -/
def tau (t C : List ℚ) : ℚ :=
  trapezoid (List.zipWith (fun a b => a * b) t (Edist t C)) t

/-- Embedding of line 92: `sigma_squared = trapezoid((t - tau) ** 2 * E, t)`. -/
def sigmaSq (t C : List ℚ) : ℚ :=
  trapezoid (List.zipWith (fun a b => (a - tau t C) ^ 2 * b) t (Edist t C)) t

/-- The sidebar reactor and fluid parameters (lines 58-63), together with
`piv`, the rational value standing for the source's constant `np.pi`. -/
structure Params where
  D : ℚ
  L : ℚ
  epsilon : ℚ
  Dp : ℚ
  mu : ℚ
  rho : ℚ
  piv : ℚ
deriving DecidableEq

/-- Embedding of line 64: `A = np.pi * (D / 2) ** 2`. -/
def crossArea (p : Params) : ℚ := p.piv * (p.D / 2) ^ 2

/-- Embedding of line 87: `Q = Q_mL_min / (1e6 * 60)`. -/
def volFlow (QmL : ℚ) : ℚ := QmL / (1000000 * 60)

/-- Embedding of line 88: `v = Q / A`. -/
def supVel (p : Params) (QmL : ℚ) : ℚ := volFlow QmL / crossArea p

/-- Embedding of line 93: `D_ax = (sigma_squared * v ** 3) / 2 if v != 0
else np.nan`; `none` stands for `np.nan`. -/
def Dax (p : Params) (t C : List ℚ) (QmL : ℚ) : Option ℚ :=
  if supVel p QmL ≠ 0 then some (sigmaSq t C * supVel p QmL ^ 3 / 2) else none

/-- Embedding of line 94: `Pe = (L * v) / D_ax if D_ax != 0 else np.nan`.
In float semantics, when `D_ax` is NaN the test `D_ax != 0` is true and the
division returns NaN again, so a NaN input propagates to a NaN output. -/
def Pe (p : Params) (t C : List ℚ) (QmL : ℚ) : Option ℚ :=
  match Dax p t C QmL with
  | some d => if d ≠ 0 then some (p.L * supVel p QmL / d) else none
  | none => none

/-- Embedding of line 95: `tau_0 = (epsilon * A * L) / Q if Q != 0 else
np.nan`. -/
def tau0 (p : Params) (QmL : ℚ) : Option ℚ :=
  if volFlow QmL ≠ 0 then
    some (p.epsilon * crossArea p * p.L / volFlow QmL)
  else none

/-- Embedding of line 96: `Re = (Dp * v * rho) / ((1 - epsilon) * mu) if
mu != 0 else np.nan`. -/
def Rey (p : Params) (QmL : ℚ) : Option ℚ :=
  if p.mu ≠ 0 then
    some (p.Dp * supVel p QmL * p.rho / ((1 - p.epsilon) * p.mu))
  else none

/-- One raw input row of the uploaded table (the four required columns). -/
structure Row where
  time : ℚ
  conc : ℚ
  flow : ℚ
  run : Int
deriving DecidableEq

/-- The quantities the per-run loop body (lines 83-107) computes for one
run: the locals `Q`, `v`, `tau`, `sigma_squared`, `D_ax`, `Pe`, `tau_0`,
`Re` and the run identifier and first-row flow rate placed in the results
record.  String formatting and rounding of the displayed table are
presentation and are not modelled. -/
structure RunResult where
  run : Int
  flowRate : ℚ
  Qval : ℚ
  vval : ℚ
  tau : ℚ
  sigmaSq : ℚ
  Dax : Option ℚ
  Pe : Option ℚ
  tau0 : Option ℚ
  Rey : Option ℚ
deriving DecidableEq

/-- The body of the per-run loop (lines 83-107) applied to the rows of one
run group.  `Q_mL_min = run_data['Flow Rate (mL/min)'].values[0]` is the
first row's flow rate. -/
def analyzeRun (p : Params) (rid : Int) (rows : List Row) : RunResult :=
  let t := rows.map (fun r => r.time)
  let C := rows.map (fun r => r.conc)
  let QmL := (rows.map (fun r => r.flow)).headD 0
  { run := rid
    flowRate := QmL
    Qval := volFlow QmL
    vval := supVel p QmL
    tau := tau t C
    sigmaSq := sigmaSq t C
    Dax := Dax p t C QmL
    Pe := Pe p t C QmL
    tau0 := tau0 p QmL
    Rey := Rey p QmL }

/-- First-seen deduplication of the run identifiers, the behaviour of
`df['Run'].unique()` (line 82): `seen` accumulates identifiers already
emitted. -/
def uniqueAux {α : Type} [DecidableEq α] : List α → List α → List α
  | _, [] => []
  | seen, a :: as =>
      if a ∈ seen then uniqueAux seen as else a :: uniqueAux (a :: seen) as

/-- Distinct run identifiers in first-seen order, as `df['Run'].unique()`
returns them. -/
def uniqueFirstSeen {α : Type} [DecidableEq α] (l : List α) : List α :=
  uniqueAux [] l

/-- The per-run loop of lines 82-107: one `RunResult` per distinct run
identifier in first-seen order, each computed from the rows of that run
(`df[df['Run'] == run_id]`, in file order). -/
def analyzeRuns (p : Params) (rows : List Row) : List RunResult :=
  (uniqueFirstSeen (rows.map (fun r => r.run))).map
    (fun rid => analyzeRun p rid (rows.filter (fun r => decide (r.run = rid))))

/-- The four required column names of line 75. -/
def requiredCols : List String :=
  ["Time (s)", "Concentration (C)", "Flow Rate (mL/min)", "Run"]

/-- The failure the schema check of lines 76-77 can signal.  The source's
error message names the comma-joined list carried here. -/
inductive AnalysisError where
  | missingColumn (named : List String)
deriving DecidableEq

/-- Embedding of Python's `col.strip()` (line 73): drop whitespace from
both ends of the string. -/
def pyStrip (s : String) : String :=
  String.mk
    (((s.toList.dropWhile Char.isWhitespace).reverse.dropWhile
        Char.isWhitespace).reverse)

/-- The whole analysis of lines 72-107: strip whitespace from the column
names (line 73), check that every required column is present (line 76) and
only then run the per-run loop; on a failed check, stop with the error of
line 77, which names all of `required_cols`. -/
def analyzeTable (p : Params) (cols : List String) (rows : List Row) :
    Except AnalysisError (List RunResult) :=
  if requiredCols.all (fun c => (cols.map pyStrip).contains c) then
    Except.ok (analyzeRuns p rows)
  else
    Except.error (AnalysisError.missingColumn requiredCols)

/-! ### Helper lemmas about the pipeline -/

theorem Edist_length (t C : List ℚ) : (Edist t C).length = C.length := by
  unfold Edist
  split <;> simp [clip0]

/-- When the clipped trace has nonzero area, the normalized curve has unit
trapezoidal integral over the same grid. -/
theorem trapezoid_Edist_eq_one (t C : List ℚ) (h : totalArea t C ≠ 0) :
    trapezoid (Edist t C) t = 1 := by
  rw [Edist, if_pos h, trapezoid_map_div, ← totalArea, div_self h]

theorem zipWith_add_split (f g : ℚ → ℚ → ℚ) :
    ∀ (t E : List ℚ),
      List.zipWith (fun a b => f a b + g a b) t E =
        List.zipWith (fun a b => a + b) (List.zipWith f t E)
          (List.zipWith g t E)
  | [], _ => by simp
  | _ :: _, [] => by simp
  | a :: t, b :: E => by
      simp only [List.zipWith_cons_cons]
      rw [zipWith_add_split f g t E]

theorem zipWith_snd_mul (c : ℚ) :
    ∀ (t E : List ℚ), t.length = E.length →
      List.zipWith (fun _ b => c * b) t E = E.map (fun e => c * e)
  | [], [], _ => rfl
  | [], _ :: _, h => by simp at h
  | _ :: _, [], h => by simp at h
  | _ :: t, b :: E, h => by
      simp only [List.zipWith_cons_cons, List.map_cons]
      rw [zipWith_snd_mul c t E (by simpa using h)]

theorem zipWith_replicate_zero {f : ℚ → ℚ → ℚ} (hf : ∀ a, f a 0 = 0) :
    ∀ (t : List ℚ) (n : ℕ),
      List.zipWith f t (List.replicate n 0) =
        List.replicate (min t.length n) 0
  | [], n => by simp
  | _ :: t, 0 => by simp
  | a :: t, n + 1 => by
      simp only [List.replicate_succ, List.zipWith_cons_cons, hf a,
        List.length_cons, Nat.succ_min_succ]
      rw [zipWith_replicate_zero hf t n]

theorem mem_uniqueAux {α : Type} [DecidableEq α] (a : α) :
    ∀ (l seen : List α), a ∈ uniqueAux seen l ↔ a ∈ l ∧ a ∉ seen
  | [], seen => by simp [uniqueAux]
  | b :: bs, seen => by
      rw [uniqueAux]
      by_cases hb : b ∈ seen
      · rw [if_pos hb, mem_uniqueAux a bs seen]
        constructor
        · rintro ⟨h1, h2⟩
          exact ⟨List.mem_cons_of_mem _ h1, h2⟩
        · rintro ⟨h1, h2⟩
          rcases List.mem_cons.1 h1 with rfl | h1
          · exact absurd hb h2
          · exact ⟨h1, h2⟩
      · rw [if_neg hb]
        rw [List.mem_cons, mem_uniqueAux a bs (b :: seen)]
        constructor
        · rintro (rfl | ⟨h1, h2⟩)
          · exact ⟨List.mem_cons_self _ _, hb⟩
          · refine ⟨List.mem_cons_of_mem _ h1, fun hs => h2 ?_⟩
            exact List.mem_cons_of_mem _ hs
        · rintro ⟨h1, h2⟩
          rcases List.mem_cons.1 h1 with rfl | h1
          · exact Or.inl rfl
          · by_cases hab : a = b
            · exact Or.inl hab
            · exact Or.inr ⟨h1, by simp [hab, h2]⟩

theorem nodup_uniqueAux {α : Type} [DecidableEq α] :
    ∀ (l seen : List α), (uniqueAux seen l).Nodup
  | [], seen => by simp [uniqueAux]
  | b :: bs, seen => by
      rw [uniqueAux]
      by_cases hb : b ∈ seen
      · rw [if_pos hb]
        exact nodup_uniqueAux bs seen
      · rw [if_neg hb]
        refine List.Nodup.cons ?_ (nodup_uniqueAux bs (b :: seen))
        intro hmem
        exact ((mem_uniqueAux b bs (b :: seen)).1 hmem).2 (List.mem_cons_self _ _)

theorem mem_uniqueFirstSeen {α : Type} [DecidableEq α] (a : α) (l : List α) :
    a ∈ uniqueFirstSeen l ↔ a ∈ l := by
  rw [uniqueFirstSeen, mem_uniqueAux]
  simp

theorem nodup_uniqueFirstSeen {α : Type} [DecidableEq α] (l : List α) :
    (uniqueFirstSeen l).Nodup :=
  nodup_uniqueAux l []

/-! ### Claim theorems -/

/-- C1: the Normalizer first replaces each concentration value below zero
with zero; if the trapezoidal integral of the clipped concentrations over
the time grid is nonzero, then E equals the clipped concentration divided
by that integral pointwise, and consequently the trapezoidal integral of E
over the same time grid equals 1.  The embedding computes in exact
rational arithmetic, so equality to 1 is exact, which is stronger than the
claimed 1e-9 floating tolerance. -/
theorem C1_normalized_curve_unit_area (t C : List ℚ)
    (h : totalArea t C ≠ 0) :
    (∀ i < C.length,
        (clip0 C).getD i 0 = if C.getD i 0 < 0 then 0 else C.getD i 0) ∧
    Edist t C = (clip0 C).map (fun c => c / totalArea t C) ∧
    trapezoid (Edist t C) t = 1 := by
  refine ⟨?_, ?_, trapezoid_Edist_eq_one t C h⟩
  · intro i hi
    have hi' : i < (clip0 C).length := by simpa [clip0] using hi
    rw [List.getD_eq_getElem _ _ hi', List.getD_eq_getElem _ _ hi]
    simp only [clip0, List.getElem_map]
    rcases lt_or_le (C[i]) 0 with hc | hc
    · rw [if_pos hc, max_eq_right hc.le]
    · rw [if_neg (not_lt.2 hc), max_eq_left hc]
  · rw [Edist, if_pos h]

/-- Witness for C1 at the trace t = [0,1,2,3], C = [-1,1,1,-2]: the
negatives are clipped, the clipped area is 2, E = [0, 1/2, 1/2, 0] and its
trapezoidal integral is 1. -/
theorem C1_witness :
    Edist [0, 1, 2, 3] [-1, 1, 1, -2] = [0, 1/2, 1/2, 0] ∧
    trapezoid (Edist [0, 1, 2, 3] [-1, 1, 1, -2]) [0, 1, 2, 3] = 1 := by
  have h : totalArea [0, 1, 2, 3] [-1, 1, 1, -2] ≠ 0 := by
    norm_num [totalArea, clip0, trapezoid]
  have hmain := C1_normalized_curve_unit_area [0, 1, 2, 3] [-1, 1, 1, -2] h
  refine ⟨?_, hmain.2.2⟩
  rw [hmain.2.1]
  norm_num [clip0, totalArea, trapezoid]

/-- C2: the Moment Analyzer computes the mean residence time as the
trapezoidal integral of t * E(t) over the curve's time grid and the
variance as the trapezoidal integral of (t - tau)^2 * E(t) over the same
grid; `trapezoidSum` is the textbook interval-sum form of the trapezoidal
rule, so this states that both moments are exactly the trapezoidal-rule
integrals of the claimed integrands. -/
theorem C2_moments_are_trapezoidal_integrals (t C : List ℚ) :
    tau t C =
      trapezoidSum (List.zipWith (fun a b => a * b) t (Edist t C)) t ∧
    sigmaSq t C =
      trapezoidSum
        (List.zipWith (fun a b => (a - tau t C) ^ 2 * b) t (Edist t C)) t :=
  ⟨trapezoid_eq_trapezoidSum _ _, trapezoid_eq_trapezoidSum _ _⟩

/-- C4: for a trace whose trapezoidal total area is exactly zero — and a
trace whose concentration values are all zero has zero total area, giving
the claimed equivalent reading — the Normalizer produces an all-zero E
instead of failing, the moments are both 0, and the per-run loop still
produces one result row per distinct run identifier, so processing of
that run and of all other runs continues. -/
theorem C4_all_zero_trace_degenerates (t C : List ℚ)
    (h : totalArea t C = 0) :
    ((∀ c ∈ C, c = 0) → totalArea t C = 0) ∧
    Edist t C = List.replicate C.length 0 ∧
    tau t C = 0 ∧
    sigmaSq t C = 0 ∧
    (∀ (p : Params) (rows : List Row),
      (analyzeRuns p rows).length =
        (uniqueFirstSeen (rows.map (fun r => r.run))).length) := by
  have hE : Edist t C = List.replicate C.length 0 := by
    rw [Edist, if_neg (by simp [h])]
    simp [clip0]
  have htau : tau t C = 0 := by
    rw [tau, hE, zipWith_replicate_zero (fun a => by ring)]
    exact trapezoid_eq_zero_of_mem _ _ (fun a ha => List.eq_of_mem_replicate ha)
  have hsigma : sigmaSq t C = 0 := by
    rw [sigmaSq, hE, zipWith_replicate_zero (fun a => by ring)]
    exact trapezoid_eq_zero_of_mem _ _ (fun a ha => List.eq_of_mem_replicate ha)
  refine ⟨fun hall => ?_, hE, htau, hsigma, fun p rows => by
    simp [analyzeRuns]⟩
  refine trapezoid_eq_zero_of_mem _ _ ?_
  intro a ha
  rcases List.mem_map.1 ha with ⟨c, hc, rfl⟩
  rw [hall c hc]
  simp

/-- Witness for C4 at t = [0,1], C = [0,0]: the all-zero trace has zero
area, E is all-zero and both moments vanish. -/
theorem C4_witness :
    Edist [0, 1] [0, 0] = [0, 0] ∧
    tau [0, 1] [0, 0] = 0 ∧ sigmaSq [0, 1] [0, 0] = 0 := by
  have h := C4_all_zero_trace_degenerates [0, 1] [0, 0]
    (by norm_num [totalArea, clip0, trapezoid])
  exact ⟨by rw [h.2.1]; rfl, h.2.2.1, h.2.2.2.1⟩

/-- A concrete parameter set used by witnesses: D = 2, L = 1, epsilon =
1/2, Dp = 1, mu = 1, rho = 1, with piv = 3 standing in for np.pi. -/
def paramsA : Params := ⟨2, 1, 1/2, 1, 1, 1, 3⟩

/-- A parameter set with zero viscosity, used to exercise the mu = 0
guard. -/
def paramsB : Params := ⟨2, 1, 1/2, 1, 0, 1, 3⟩

/-- C3: the Derived-Quantity Calculator computes A = piv * (D/2)^2 (piv
standing for np.pi), Q = flowRateMlPerMin / (1e6 * 60), v = Q / A, and,
with each guard as in the source, D_ax = sigma^2 * v^3 / 2 when v is
nonzero, Pe = L * v / D_ax when D_ax is defined and nonzero, tau_0 =
epsilon * A * L / Q when Q is nonzero, Re = Dp * v * rho / ((1 - epsilon)
* mu) when mu is nonzero; whenever a guard fails the quantity is `none`
(undefined) rather than a number. -/
theorem C3_derived_quantities (p : Params) (QmL : ℚ) (t C : List ℚ) :
    crossArea p = p.piv * (p.D / 2) ^ 2 ∧
    volFlow QmL = QmL / (1000000 * 60) ∧
    supVel p QmL = volFlow QmL / crossArea p ∧
    (supVel p QmL ≠ 0 →
      Dax p t C QmL = some (sigmaSq t C * supVel p QmL ^ 3 / 2)) ∧
    (supVel p QmL = 0 → Dax p t C QmL = none) ∧
    (∀ d, Dax p t C QmL = some d → d ≠ 0 →
      Pe p t C QmL = some (p.L * supVel p QmL / d)) ∧
    (Dax p t C QmL = none → Pe p t C QmL = none) ∧
    (Dax p t C QmL = some 0 → Pe p t C QmL = none) ∧
    (volFlow QmL ≠ 0 →
      tau0 p QmL = some (p.epsilon * crossArea p * p.L / volFlow QmL)) ∧
    (volFlow QmL = 0 → tau0 p QmL = none) ∧
    (p.mu ≠ 0 →
      Rey p QmL =
        some (p.Dp * supVel p QmL * p.rho / ((1 - p.epsilon) * p.mu))) ∧
    (p.mu = 0 → Rey p QmL = none) := by
  refine ⟨rfl, rfl, rfl, fun hv => ?_, fun hv => ?_, fun d hd hdne => ?_,
    fun hd => ?_, fun hd => ?_, fun hq => ?_, fun hq => ?_, fun hm => ?_,
    fun hm => ?_⟩
  · rw [Dax, if_pos hv]
  · rw [Dax, if_neg (by simp [hv])]
  · simp only [Pe, hd]
    rw [if_pos hdne]
  · simp only [Pe, hd]
  · simp only [Pe, hd]
    rw [if_neg (by simp)]
  · rw [tau0, if_pos hq]
  · rw [tau0, if_neg (by simp [hq])]
  · rw [Rey, if_pos hm]
  · rw [Rey, if_neg (by simp [hm])]

/-- Witness for C3: with paramsA (so A = 3) and a first-row flow rate of
180000000 mL/min (so Q = 3 and v = 1) over the trace t = [0,1,2],
C = [1,1,1] (so sigma^2 = 1/2), the four guarded quantities are defined
with their formula values; with zero flow D_ax, Pe, tau_0 are undefined,
and with zero viscosity Re is undefined. -/
theorem C3_witness :
    Dax paramsA [0, 1, 2] [1, 1, 1] 180000000 = some (1/4) ∧
    Pe paramsA [0, 1, 2] [1, 1, 1] 180000000 = some 4 ∧
    tau0 paramsA 180000000 = some (1/2) ∧
    Rey paramsA 180000000 = some 2 ∧
    Dax paramsA [0, 1, 2] [1, 1, 1] 0 = none ∧
    Pe paramsA [0, 1, 2] [1, 1, 1] 0 = none ∧
    tau0 paramsA 0 = none ∧
    Rey paramsB 180000000 = none := by
  obtain ⟨-, -, -, h4, -, h6, h7, -, h9, h10, h11, -⟩ :=
    C3_derived_quantities paramsA 180000000 [0, 1, 2] [1, 1, 1]
  obtain ⟨-, -, -, -, g5, -, g7, -, -, g10, -, -⟩ :=
    C3_derived_quantities paramsA 0 [0, 1, 2] [1, 1, 1]
  obtain ⟨-, -, -, -, -, -, -, -, -, -, -, k12⟩ :=
    C3_derived_quantities paramsB 180000000 [0, 1, 2] [1, 1, 1]
  have hv : supVel paramsA 180000000 = 1 := by
    norm_num [supVel, volFlow, crossArea, paramsA]
  have hs : sigmaSq [0, 1, 2] [1, 1, 1] = 1/2 := by
    norm_num [sigmaSq, tau, Edist, totalArea, clip0, trapezoid]
  have hDax : Dax paramsA [0, 1, 2] [1, 1, 1] 180000000 = some (1/4) := by
    rw [h4 (by rw [hv]; norm_num), hv, hs]
    norm_num
  have hDax0 : Dax paramsA [0, 1, 2] [1, 1, 1] 0 = none :=
    g5 (by norm_num [supVel, volFlow, crossArea, paramsA])
  refine ⟨hDax, ?_, ?_, ?_, hDax0, g7 hDax0, ?_, ?_⟩
  · rw [h6 (1/4) hDax (by norm_num), hv]
    norm_num [paramsA]
  · rw [h9 (by norm_num [volFlow])]
    norm_num [volFlow, crossArea, paramsA]
  · rw [h11 (by norm_num [paramsA]), hv]
    norm_num [paramsA]
  · exact g10 (by norm_num [volFlow])
  · exact k12 (by norm_num [paramsB])

/-- C7: for a run whose first-row flow rate is 0, the ideal space time,
the axial dispersion coefficient and the Peclet number in that run's
result are all `none` (the explicit undefined value standing for np.nan);
the per-run computation is a total function, so no division raises, and
the undefined values sit in the run's output record. -/
theorem C7_zero_flow_undefined (p : Params) (rid : Int) (rows : List Row)
    (h : (rows.map (fun r => r.flow)).headD 0 = 0) :
    (analyzeRun p rid rows).tau0 = none ∧
    (analyzeRun p rid rows).Dax = none ∧
    (analyzeRun p rid rows).Pe = none := by
  have hq : volFlow ((rows.map (fun r => r.flow)).headD 0) = 0 := by
    rw [h, volFlow, zero_div]
  have hv : supVel p ((rows.map (fun r => r.flow)).headD 0) = 0 := by
    rw [supVel, hq, zero_div]
  have hDax : Dax p (rows.map (fun r => r.time)) (rows.map (fun r => r.conc))
      ((rows.map (fun r => r.flow)).headD 0) = none := by
    rw [Dax, if_neg (not_not_intro hv)]
  refine ⟨?_, ?_, ?_⟩
  · show tau0 p ((rows.map (fun r => r.flow)).headD 0) = none
    rw [tau0, if_neg (not_not_intro hq)]
  · exact hDax
  · show Pe p (rows.map (fun r => r.time)) (rows.map (fun r => r.conc))
      ((rows.map (fun r => r.flow)).headD 0) = none
    simp only [Pe, hDax]

/-- Witness for C7 at a two-row run with zero flow rate. -/
theorem C7_witness :
    (analyzeRun paramsA 1 [⟨0, 1, 0, 1⟩, ⟨1, 2, 0, 1⟩]).tau0 = none ∧
    (analyzeRun paramsA 1 [⟨0, 1, 0, 1⟩, ⟨1, 2, 0, 1⟩]).Dax = none ∧
    (analyzeRun paramsA 1 [⟨0, 1, 0, 1⟩, ⟨1, 2, 0, 1⟩]).Pe = none :=
  C7_zero_flow_undefined paramsA 1 [⟨0, 1, 0, 1⟩, ⟨1, 2, 0, 1⟩] (by simp)

/-- Counterexample for C5 as stated: for an input whose columns are only
the first three required names (so that exactly `Run` is missing), the
analysis does fail before any computation, but the error names the full
`required_cols` list, not exactly the missing columns: the list of
actually-missing columns is `["Run"]` and the named list differs from
it. -/
theorem C5_counterexample :
    analyzeTable paramsA
        ["Time (s)", "Concentration (C)", "Flow Rate (mL/min)"] [] =
      Except.error (AnalysisError.missingColumn requiredCols) ∧
    requiredCols.filter
        (fun c =>
          !((["Time (s)", "Concentration (C)",
              "Flow Rate (mL/min)"].map pyStrip).contains c)) = ["Run"] ∧
    requiredCols ≠ ["Run"] := by
  refine ⟨?_, by decide, by decide⟩
  rw [analyzeTable, if_neg (by decide)]

/-- C5 as amended: for every input whose (whitespace-stripped) column
names omit at least one required column, the analysis fails, before any
grouping or computation and with no partial results, with a MissingColumn
error naming the full list of required columns (a fixed superset of the
missing ones). -/
theorem C5_missing_column_fails (p : Params) (cols : List String)
    (rows : List Row)
    (h : ∃ c ∈ requiredCols, c ∉ cols.map pyStrip) :
    analyzeTable p cols rows =
      Except.error (AnalysisError.missingColumn requiredCols) := by
  rw [analyzeTable, if_neg]
  intro hall
  obtain ⟨c, hc, hnot⟩ := h
  have := List.all_eq_true.1 hall c hc
  simp only [List.contains, List.elem_eq_mem, decide_eq_true_eq] at this
  exact hnot this

/-- Witness for C5 (amended) at a one-column input. -/
theorem C5_witness :
    analyzeTable paramsA ["Time (s)"] [] =
      Except.error (AnalysisError.missingColumn requiredCols) :=
  C5_missing_column_fails paramsA ["Time (s)"] []
    ⟨"Run", by decide, by decide⟩

/-- C6, evaluated at the failing input: a run with a single sample
(t = 5, C = 3, flow = 30, run = 1) is not rejected; the analysis succeeds
and silently produces tau = 0 and sigma^2 = 0 for that run, exactly the
degenerate-zero outcome the claim says must instead be an
InsufficientSamples failure.  No error value other than MissingColumn
exists anywhere in the source, so no per-run failure is possible. -/
theorem C6_single_sample_silent_zero :
    analyzeTable paramsA requiredCols [⟨5, 3, 30, 1⟩] =
      Except.ok [analyzeRun paramsA 1 [⟨5, 3, 30, 1⟩]] ∧
    (analyzeRun paramsA 1 [⟨5, 3, 30, 1⟩]).tau = 0 ∧
    (analyzeRun paramsA 1 [⟨5, 3, 30, 1⟩]).sigmaSq = 0 := by
  refine ⟨?_, ?_, ?_⟩
  · rw [analyzeTable, if_pos (by decide)]
    simp [analyzeRuns, uniqueFirstSeen, uniqueAux]
  · show tau [5] [3] = 0
    norm_num [tau, Edist, totalArea, clip0, trapezoid]
  · show sigmaSq [5] [3] = 0
    norm_num [sigmaSq, tau, Edist, totalArea, clip0, trapezoid]

/-- Counterexample for C8 as stated: the shift law fails for a RunTrace
with zero total area.  At t = [0,1], C = [0,0], c = 1 both the shifted and
the unshifted mean are 0, so the shifted mean is not tau + 1. -/
theorem C8_counterexample :
    ¬ (tau (List.map (fun x => x + 1) [0, 1]) [0, 0] =
          tau [0, 1] [0, 0] + 1 ∧
       sigmaSq (List.map (fun x => x + 1) [0, 1]) [0, 0] =
          sigmaSq [0, 1] [0, 0]) := by
  rintro ⟨h1, -⟩
  norm_num [tau, Edist, totalArea, clip0, trapezoid] at h1

/-- C8 as amended: for every RunTrace whose times and concentrations have
the same length (a RunTrace invariant) and whose clipped total area is
nonzero, uniformly shifting the time axis by c shifts the mean residence
time by exactly c and leaves the variance unchanged. -/
theorem C8_time_shift (t C : List ℚ) (c : ℚ)
    (hlen : t.length = C.length) (h : totalArea t C ≠ 0) :
    tau (t.map (fun x => x + c)) C = tau t C + c ∧
    sigmaSq (t.map (fun x => x + c)) C = sigmaSq t C := by
  have hA : totalArea (t.map (fun x => x + c)) C = totalArea t C := by
    rw [totalArea, totalArea, trapezoid_map_add_right]
  have hE : Edist (t.map (fun x => x + c)) C = Edist t C := by
    unfold Edist
    rw [hA]
  have hlenE : t.length = (Edist t C).length := by
    rw [Edist_length]
    exact hlen
  have htau : tau (t.map (fun x => x + c)) C = tau t C + c := by
    simp only [tau, hE]
    rw [trapezoid_map_add_right, List.zipWith_map_left]
    have hfun : (fun a b => (a + c) * b) =
        (fun (a b : ℚ) => a * b + c * b) := by
      funext a b
      ring
    rw [hfun, zipWith_add_split (fun a b => a * b) (fun _ b => c * b) t
        (Edist t C),
      trapezoid_add _ _ _ (by simp),
      zipWith_snd_mul c t (Edist t C) hlenE,
      trapezoid_map_mul, trapezoid_Edist_eq_one t C h, mul_one]
  refine ⟨htau, ?_⟩
  simp only [sigmaSq, hE, htau]
  rw [trapezoid_map_add_right, List.zipWith_map_left]
  have hfun2 : (fun a b => (a + c - (tau t C + c)) ^ 2 * b) =
      (fun (a b : ℚ) => (a - tau t C) ^ 2 * b) := by
    funext a b
    ring
  rw [hfun2]

/-- Witness for C8 (amended) at t = [0,1,2], C = [0,1,0], c = 5: the mean
moves from 1 to 6 and the variance stays 0. -/
theorem C8_witness :
    tau (List.map (fun x => x + 5) [0, 1, 2]) [0, 1, 0] =
      tau [0, 1, 2] [0, 1, 0] + 5 ∧
    sigmaSq (List.map (fun x => x + 5) [0, 1, 2]) [0, 1, 0] =
      sigmaSq [0, 1, 2] [0, 1, 0] :=
  C8_time_shift [0, 1, 2] [0, 1, 0] 5 (by simp)
    (by norm_num [totalArea, clip0, trapezoid])

/-- C9: the results table has exactly one row per distinct run identifier
(its run column equals the first-seen deduplication of the input's run
column, it has no duplicates, and it mentions exactly the identifiers that
occur in the input), ordered by first-seen order; in particular, for rows
with runs in order [2,2,1,1] the table lists run 2 before run 1. -/
theorem C9_one_row_per_run_first_seen_order (p : Params) (rows : List Row) :
    (analyzeRuns p rows).map (fun r => r.run) =
      uniqueFirstSeen (rows.map (fun r => r.run)) ∧
    ((analyzeRuns p rows).map (fun r => r.run)).Nodup ∧
    (∀ rid : Int, rid ∈ (analyzeRuns p rows).map (fun r => r.run) ↔
      rid ∈ rows.map (fun r => r.run)) ∧
    (analyzeRuns p [⟨0, 0, 10, 2⟩, ⟨1, 1, 10, 2⟩, ⟨0, 0, 20, 1⟩,
        ⟨1, 2, 20, 1⟩]).map (fun r => r.run) = [2, 1] := by
  have hgen : ∀ rs : List Row,
      (analyzeRuns p rs).map (fun r => r.run) =
        uniqueFirstSeen (rs.map (fun r => r.run)) := by
    intro rs
    rw [analyzeRuns, List.map_map]
    have hid : ∀ l : List Int,
        List.map ((fun r : RunResult => r.run) ∘ fun rid =>
          analyzeRun p rid (rs.filter (fun r => decide (r.run = rid)))) l =
          l := by
      intro l
      induction l with
      | nil => rfl
      | cons a as ih =>
          rw [List.map_cons, ih]
          rfl
    exact hid _
  refine ⟨hgen rows, ?_, ?_, ?_⟩
  · rw [hgen rows]
    exact nodup_uniqueFirstSeen _
  · intro rid
    rw [hgen rows, mem_uniqueFirstSeen]
  · rw [hgen]
    decide

/-- C10: the volumetric flow, superficial velocity, ideal space time and
Reynolds number of a run's result depend only on the run's first-row flow
rate and the supplied parameters: any two row groups whose first-row flow
rates agree yield identical values for these four quantities, in
particular groups differing only in concentrations or only in flow rates
on rows after the first. -/
theorem C10_flow_quantities_first_row_only (p : Params) (rid1 rid2 : Int)
    (rows1 rows2 : List Row)
    (h : (rows1.map (fun r => r.flow)).headD 0 =
      (rows2.map (fun r => r.flow)).headD 0) :
    (analyzeRun p rid1 rows1).Qval = (analyzeRun p rid2 rows2).Qval ∧
    (analyzeRun p rid1 rows1).vval = (analyzeRun p rid2 rows2).vval ∧
    (analyzeRun p rid1 rows1).tau0 = (analyzeRun p rid2 rows2).tau0 ∧
    (analyzeRun p rid1 rows1).Rey = (analyzeRun p rid2 rows2).Rey := by
  refine ⟨?_, ?_, ?_, ?_⟩
  · show volFlow ((rows1.map (fun r => r.flow)).headD 0) =
      volFlow ((rows2.map (fun r => r.flow)).headD 0)
    rw [h]
  · show supVel p ((rows1.map (fun r => r.flow)).headD 0) =
      supVel p ((rows2.map (fun r => r.flow)).headD 0)
    rw [h]
  · show tau0 p ((rows1.map (fun r => r.flow)).headD 0) =
      tau0 p ((rows2.map (fun r => r.flow)).headD 0)
    rw [h]
  · show Rey p ((rows1.map (fun r => r.flow)).headD 0) =
      Rey p ((rows2.map (fun r => r.flow)).headD 0)
    rw [h]

/-- Witness for C10: two groups for the same run with first-row flow 60,
differing in every concentration and in the second row's flow rate,
produce identical Q, v, tau_0 and Re. -/
theorem C10_witness :
    (analyzeRun paramsA 1 [⟨0, 0, 60, 1⟩, ⟨1, 1, 60, 1⟩]).Qval =
      (analyzeRun paramsA 1 [⟨0, 5, 60, 1⟩, ⟨1, 9, 99, 1⟩]).Qval ∧
    (analyzeRun paramsA 1 [⟨0, 0, 60, 1⟩, ⟨1, 1, 60, 1⟩]).vval =
      (analyzeRun paramsA 1 [⟨0, 5, 60, 1⟩, ⟨1, 9, 99, 1⟩]).vval ∧
    (analyzeRun paramsA 1 [⟨0, 0, 60, 1⟩, ⟨1, 1, 60, 1⟩]).tau0 =
      (analyzeRun paramsA 1 [⟨0, 5, 60, 1⟩, ⟨1, 9, 99, 1⟩]).tau0 ∧
    (analyzeRun paramsA 1 [⟨0, 0, 60, 1⟩, ⟨1, 1, 60, 1⟩]).Rey =
      (analyzeRun paramsA 1 [⟨0, 5, 60, 1⟩, ⟨1, 9, 99, 1⟩]).Rey :=
  C10_flow_quantities_first_row_only paramsA 1 1
    [⟨0, 0, 60, 1⟩, ⟨1, 1, 60, 1⟩] [⟨0, 5, 60, 1⟩, ⟨1, 9, 99, 1⟩] (by simp)

end RTD
